import Mathlib

/-!
Verification of the MarkovTweet repository (`markovtweet.py`).

The Python source builds a first-order Markov chain over tokenized tweets
(`Markov_Chain` with nested `Probability_Distribution`), trains it with
`update_markov_chain`, samples with `Probability_Distribution.pick`, and
generates text with `generate_tweet`.  Python dicts preserve insertion
order, so both the chain's mapping and each distribution's mapping are
embedded as insertion-ordered association lists.  Randomness is embedded
by passing the drawn number explicitly (`random.randrange(total)` draws
uniformly in `[0, total)`; we reduce an arbitrary oracle value modulo the
total, which is the identity on in-range draws).  Python exceptions are
embedded as explicit error values.
-/

namespace MarkovTweet

/-- Python exceptions that the sampled parts of the source can raise:
`KeyError` from `self.mc[token]`, `ValueError` from `random.randrange(0)`. -/
inductive PyErr where
  | keyError
  | valueError
deriving DecidableEq

/-- Insertion-ordered association-list lookup: `d[k]` / `k in d` on a
Python dict, returning `none` where Python raises `KeyError`. -/
def alookup {α : Type} : List (String × α) → String → Option α
  | [], _ => none
  | (k, v) :: rest, key => if k = key then some v else alookup rest key

/-- `Probability_Distribution`: `self.dist` (token → count, insertion
ordered) and `self.total`. -/
structure Dist where
  dist : List (String × Nat)
  total : Nat
deriving DecidableEq

/-- `Probability_Distribution.__init__`: `self.dist = {}; self.total = 0`. -/
def Dist.empty : Dist := ⟨[], 0⟩

/-- The dict mutation inside `Probability_Distribution.update`:
`self.dist[token] += 1` if present, else `self.dist[token] = 1`
(a fresh key is appended at the end, matching dict insertion order). -/
def incr : List (String × Nat) → String → List (String × Nat)
  | [], t => [(t, 1)]
  | (k, c) :: rest, t => if k = t then (k, c + 1) :: rest else (k, c) :: incr rest t

/-- `Probability_Distribution.update(token)`: bump the token's count and
increment `self.total`. -/
def Dist.update (d : Dist) (token : String) : Dist :=
  { dist := incr d.dist token, total := d.total + 1 }

/-- The `for token in self.dist` loop of `Probability_Distribution.pick`:
walk the mapping in iteration order with accumulator `currDex`, returning
the first token with `randnum < currCnt + currDex`.  Falling off the loop
returns Python's implicit `None`. -/
def pickLoop : List (String × Nat) → Nat → Nat → Option String
  | [], _, _ => none
  | (token, currCnt) :: rest, randnum, currDex =>
      if randnum < currCnt + currDex then some token
      else pickLoop rest randnum (currDex + currCnt)

/-- `Probability_Distribution.pick`, with the random draw made explicit:
`random.randrange(self.total)` raises `ValueError` when `total = 0`,
otherwise yields a number in `[0, total)` (an arbitrary oracle value `r`
is reduced mod `total`, the identity for in-range `r`). -/
def Dist.pick (d : Dist) (r : Nat) : Except PyErr (Option String) :=
  if d.total = 0 then .error .valueError
  else .ok (pickLoop d.dist (r % d.total) 0)

/-- `Markov_Chain.mc`: context token → distribution, insertion ordered. -/
abbrev Chain := List (String × Dist)

/-- One training step on the chain's dict: `self.mc[a].update(b)` when `a`
is present, else `self.mc[a] = Probability_Distribution()` followed by
`self.mc[a].update(b)` (fresh key appended at the end). -/
def chainStep : Chain → String → String → Chain
  | [], a, b => [(a, Dist.update Dist.empty b)]
  | (k, d) :: rest, a, b =>
      if k = a then (k, Dist.update d b) :: rest
      else (k, d) :: chainStep rest a b

/-- The loop `for i in range(1, len(tokens))` of `update_markov_chain`:
`prev` is `tokens[i-1]` and the list argument holds `tokens[i..]`.  Each
iteration updates the pair's distribution; on the final iteration
(`i == len(tokens) - 1`) the last token's own distribution is additionally
updated with `'END_OF_TWEET'`. -/
def trainLoop : Chain → String → List String → Chain
  | mc, prev, [] => chainStep mc prev "END_OF_TWEET"
  | mc, prev, x :: xs => trainLoop (chainStep mc prev x) x xs

/-- `Markov_Chain.update_markov_chain(tokens)`: for token lists of length
0 or 1 the loop `range(1, len(tokens))` is empty and nothing happens;
otherwise every adjacent pair is recorded and the last token gets the
`'END_OF_TWEET'` terminal mark. -/
def update_markov_chain (mc : Chain) : List String → Chain
  | [] => mc
  | [_] => mc
  | t0 :: t1 :: rest => trainLoop mc t0 (t1 :: rest)

/-- `Markov_Chain.generate_next_token(token)`: `self.mc[token].pick()`;
`self.mc[token]` raises `KeyError` when the context is absent. -/
def generate_next_token (mc : Chain) (token : String) (r : Nat) :
    Except PyErr (Option String) :=
  match alookup mc token with
  | none => .error .keyError
  | some d => d.pick r

/-- Observable outcome of `generate_tweet`: a returned string together
with the lines printed on the way (the `except KeyError` branch prints a
diagnostic and returns `""`), or an uncaught exception (`ValueError` from
`randrange(0)`, `TypeError` from concatenating `None`). -/
inductive TweetOutcome where
  | returned (tweet : String) (printed : List String)
  | raisedValueError
  | raisedTypeError
deriving DecidableEq

/-- The `while len(tweet) < 140` loop of `generate_tweet`.  `seed` is the
loop variable the source reassigns (`seed = next`); the random draw of
iteration number `step` is `oracle step`.  Each iteration grows the tweet
by at least one character (one space plus the next token), so once the
length reaches 140 the loop exits: fuel 140 always outlasts the loop, and
the fuel-exhausted branch — reachable only when `len(tweet) >= 140`
already holds — returns exactly what the loop exit returns
(`genLoop_fuel_irrelevant` below proves the fuel choice immaterial). -/
def genLoop (mc : Chain) (oracle : Nat → Nat) : Nat → Nat → String → String → TweetOutcome
  | 0, _, tweet, _ => .returned tweet []
  | fuel + 1, step, tweet, seed =>
    if tweet.length < 140 then
      match generate_next_token mc seed (oracle step) with
      | .error .keyError => .returned "" ["Seed not present in the Markov Chain"]
      | .error .valueError => .raisedValueError
      | .ok none => .raisedTypeError
      | .ok (some next) =>
          if next = "END_OF_TWEET" then .returned tweet []
          else genLoop mc oracle fuel (step + 1) (tweet ++ " " ++ next) next
    else .returned tweet []

/-- `Markov_Chain.generate_tweet(seed)`: `tweet = seed`, then the while
loop above with the current-token variable also starting at `seed`. -/
def generate_tweet (mc : Chain) (seed : String) (oracle : Nat → Nat) : TweetOutcome :=
  genLoop mc oracle 140 0 seed seed

/-! ### Tokenizer

`tokenize` compiles one verbose, case-insensitive pattern that is the
ordered alternation of nine sub-patterns and applies `findall`: scan left
to right; at each position the first alternative (in priority order) that
matches consumes its text as one token; if no alternative matches (only
possible on whitespace, since the last alternative is `\S`), the scan
advances one character without emitting a token.  Python 2 `\w` is ASCII
`[a-zA-Z0-9_]`.  Each alternative below is the source's regex compiled by
hand to a maximal-munch matcher with the backtracking the pattern needs;
each returns the number of characters the alternative consumes. -/

/-- The apostrophe character (appears in the hashtag and word classes). -/
def squote : Char := Char.ofNat 39

/-- Case-insensitive match of `c` against a lowercase pattern letter `a`
(`re.IGNORECASE`). -/
def lowerEq (c a : Char) : Bool := c == a || c == a.toUpper

/-- Python 2 `\w` (and the source's `[\w_]`): ASCII letter, digit or underscore. -/
def isWordChar (c : Char) : Bool := c.isAlpha || c.isDigit || c == '_'

/-- Python 2 `\s`: space, tab, newline, carriage return, vertical tab, form feed. -/
def isPySpace (c : Char) : Bool :=
  c == ' ' || c == '\t' || c == '\n' || c == '\r' || c == Char.ofNat 11 || c == Char.ofNat 12

/-- Eyes `[:=;]` of the emoticon pattern. -/
def isEmoEye (c : Char) : Bool := c == ':' || c == '=' || c == ';'

/-- Nose `[oO\-]?` of the emoticon pattern. -/
def isEmoNose (c : Char) : Bool := c == 'o' || c == 'O' || c == '-'

/-- Mouth `[D\)\]\(\]/\\OpP]` of the emoticon pattern, case-insensitive. -/
def isEmoMouth (c : Char) : Bool :=
  c == 'D' || c == 'd' || c == ')' || c == ']' || c == '(' || c == '/' ||
  c == '\\' || c == 'O' || c == 'o' || c == 'p' || c == 'P'

/-- Alternative 1, emoticons `[:=;][oO\-]?[D\)\]\(\]/\\OpP]`: the optional
nose is greedy, backtracking to the nose-less form when no mouth follows
(so `:o` matches as eye plus mouth). -/
def matchEmoticon : List Char → Option Nat
  | c0 :: c1 :: c2 :: _ =>
      if isEmoEye c0 then
        if isEmoNose c1 && isEmoMouth c2 then some 3
        else if isEmoMouth c1 then some 2
        else none
      else none
  | [c0, c1] => if isEmoEye c0 && isEmoMouth c1 then some 2 else none
  | _ => none

/-- Alternative 2, HTML tags `<[^>]+>`: `[^>]+` greedily takes the maximal
non-`>` run (at least one character), after which a `>` must follow. -/
def matchHtmlTag : List Char → Option Nat
  | c0 :: rest =>
      if c0 == '<' then
        let inner := rest.takeWhile (fun c => c != '>')
        if 1 ≤ inner.length then
          match rest.drop inner.length with
          | c :: _ => if c == '>' then some (inner.length + 2) else none
          | [] => none
        else none
      else none
  | [] => none

/-- Alternative 3, @-mentions `(?:@[\w_]+)`. -/
def matchMention : List Char → Option Nat
  | c0 :: rest =>
      if c0 == '@' then
        let n := (rest.takeWhile isWordChar).length
        if 1 ≤ n then some (1 + n) else none
      else none
  | [] => none

/-- The hashtag middle class `[\w\'_\-]`. -/
def isHashMid (c : Char) : Bool := isWordChar c || c == squote || c == '-'

/-- Drop the trailing characters that are not `\w` (quotes/hyphens), i.e.
keep the longest front part ending in a word character. -/
def dropTrailingNonWord (l : List Char) : List Char :=
  (l.reverse.dropWhile (fun c => !isWordChar c)).reverse

/-- Alternative 4, hashtags `(?:\#+[\w_]+[\w\'_\-]*[\w_]+)`: one or more
`#`, then (by greedy matching with backtracking of `[\w\'_\-]*` against
the final `[\w_]+`) the maximal `[\w\'_\-]` run trimmed of trailing
non-word characters; it must start with a word character and keep length
at least two (the two mandatory `[\w_]+` groups). -/
def matchHashtag (cs : List Char) : Option Nat :=
  let hs := (cs.takeWhile (fun c => c == '#')).length
  if 1 ≤ hs then
    let run := (cs.drop hs).takeWhile isHashMid
    let core := dropTrailingNonWord run
    match core with
    | c0 :: _ :: _ => if isWordChar c0 then some (hs + core.length) else none
    | _ => none
  else none

/-- The URL body class, the union of the character alternatives in
`(?:[a-z]|[0-9]|[$-_@.&amp;+]|[!*\(\),]|(?:%[0-9a-f][0-9a-f]))+`:
`[a-z]` case-insensitive; digits; `[$-_@.&amp;+]`, where `$-_` is the
character RANGE 0x24–0x5F (so also `%`, uppercase letters, digits and
most punctuation) and the rest are the literals `@ . & a m p ; +`; and
`[!*\(\),]`.  The `%[0-9a-f][0-9a-f]` escape alternative is subsumed:
`%` lies in the `$-_` range and hex digits are alphanumeric. -/
def isUrlChar (c : Char) : Bool :=
  ('a' ≤ c && c ≤ 'z') || ('A' ≤ c && c ≤ 'Z') ||
  c.isDigit ||
  ('$' ≤ c && c ≤ '_') ||
  c == '@' || c == '.' || c == '&' || c == 'a' || c == 'm' || c == 'p' || c == ';' || c == '+' ||
  c == '!' || c == '*' || c == '(' || c == ')' || c == ','

/-- The `[s]?://body+` tail of the URL pattern after the literal `http`:
the optional `s` is greedy, retried without it when `://` then fails. -/
def matchUrlTail (rest : List Char) : Option Nat :=
  let withS :=
    match rest with
    | s :: c1 :: s1 :: s2 :: rest2 =>
        if lowerEq s 's' && c1 == ':' && s1 == '/' && s2 == '/' then
          let n := (rest2.takeWhile isUrlChar).length
          if 1 ≤ n then some (4 + n) else none
        else none
    | _ => none
  match withS with
  | some n => some n
  | none =>
    match rest with
    | c1 :: s1 :: s2 :: rest2 =>
        if c1 == ':' && s1 == '/' && s2 == '/' then
          let n := (rest2.takeWhile isUrlChar).length
          if 1 ≤ n then some (3 + n) else none
        else none
    | _ => none

/-- Alternative 5, URLs `http[s]?://(?:[a-z]|[0-9]|...)+` (case-insensitive). -/
def matchUrl : List Char → Option Nat
  | h :: t1 :: t2 :: p :: rest =>
      if lowerEq h 'h' && lowerEq t1 't' && lowerEq t2 't' && lowerEq p 'p' then
        match matchUrlTail rest with
        | some n => some (4 + n)
        | none => none
      else none
  | _ => none

/-- Length of the maximal digit run (`\d+` greedy). -/
def digitRunLen (cs : List Char) : Nat := (cs.takeWhile Char.isDigit).length

/-- The `(?:\d+,?)+` part of the number pattern: each iteration takes a
maximal digit run then an optional comma; a further iteration starts only
when a digit follows (a consumed trailing comma stays consumed — the
iteration that took it already succeeded).  The fuel (instantiated with
the list length, which each pass strictly exceeds in consumption) only
bounds the recursion. -/
def numPlus : Nat → List Char → Nat
  | 0, _ => 0
  | fuel + 1, cs =>
    let n := digitRunLen cs
    match cs.drop n with
    | c :: r2 =>
        if c == ',' then
          if (r2.headD ' ').isDigit then n + 1 + numPlus fuel r2 else n + 1
        else n
    | [] => n

/-- Alternative 6, numbers `(?:(?:\d+,?)+(?:\.?\d+)?)`: the optional
fraction `\.?\d+` matches only when a dot directly followed by a digit
remains (a bare `\d+` cannot follow the maximal integer part, and a dot
without digits makes the optional group match empty). -/
def matchNumber (cs : List Char) : Option Nat :=
  if (cs.headD ' ').isDigit then
    let m := numPlus cs.length cs
    match cs.drop m with
    | c :: r2 =>
        if c == '.' && (r2.headD ' ').isDigit then some (m + 1 + digitRunLen r2)
        else some m
    | [] => some m
  else none

/-- The middle class `[a-z'\-_]` of the word pattern, case-insensitive. -/
def isWordMid (c : Char) : Bool := c.isAlpha || c == squote || c == '-' || c == '_'

/-- Keep the longest front part of `l` ending in an ASCII letter. -/
def dropTrailingNonAlpha (l : List Char) : List Char :=
  (l.reverse.dropWhile (fun c => !c.isAlpha)).reverse

/-- Alternative 7, words with `-` and `'`: `(?:[a-z][a-z'\-_]+[a-z])`
case-insensitive — a letter, then (greedy `[a-z'\-_]+` backtracking
against the final `[a-z]`) the maximal middle-class run trimmed of
trailing non-letters, of length at least two. -/
def matchApoWord : List Char → Option Nat
  | c0 :: rest =>
      if c0.isAlpha then
        let core := dropTrailingNonAlpha (rest.takeWhile isWordMid)
        if 2 ≤ core.length then some (1 + core.length) else none
      else none
  | [] => none

/-- Alternative 8, other words `(?:[\w_]+)`. -/
def matchWordChars (cs : List Char) : Option Nat :=
  let n := (cs.takeWhile isWordChar).length
  if 1 ≤ n then some n else none

/-- Alternative 9, anything else `(?:\S)`: any single non-whitespace character. -/
def matchAnyChar : List Char → Option Nat
  | c :: _ => if isPySpace c then none else some 1
  | [] => none

/-- The alternation, tried in the source's priority order; the first
alternative that matches wins. -/
def matchFirstAlternative (cs : List Char) : Option Nat :=
  matchEmoticon cs <|> matchHtmlTag cs <|> matchMention cs <|> matchHashtag cs <|>
    matchUrl cs <|> matchNumber cs <|> matchApoWord cs <|> matchWordChars cs <|>
    matchAnyChar cs

/-- The `findall` scan.  Every alternative consumes at least one character
and the no-match fallback advances one character, so fuel equal to the
input length (each pass strictly consumes from it) makes the fuel-zero
branch unreachable on a non-empty remainder. -/
def tokLoop : Nat → List Char → List String
  | 0, _ => []
  | _, [] => []
  | fuel + 1, c :: rest =>
    match matchFirstAlternative (c :: rest) with
    | some n => String.mk ((c :: rest).take n) :: tokLoop fuel ((c :: rest).drop n)
    | none => tokLoop fuel rest

/-- `tokenize(tweet)`: `re.findall` of the compiled alternation over the
tweet text, as the ordered list of matched substrings. -/
def tokenize (tweet : String) : List String := tokLoop tweet.data.length tweet.data

/-- Outcome of `json.dumps(self.mc)` inside `save_markov_chain`:
`json.dumps({})` succeeds (producing the two-character text "\x7b\x7d"),
but a non-empty `self.mc` maps tokens to `Probability_Distribution`
objects, which the default JSON encoder rejects with `TypeError`. -/
inductive JsonDumpResult where
  | ok (text : String)
  | typeError
deriving DecidableEq

/-- `json.dumps(self.mc)` as called by `save_markov_chain`. -/
def json_dumps_mc (mc : Chain) : JsonDumpResult :=
  match mc with
  | [] => .ok "\x7b\x7d"
  | _ => .typeError

/-- What `save_markov_chain(filename)` leaves behind: the content of the
file opened with `'w'`, and whether the call raised. -/
structure SaveOutcome where
  fileContent : String
  raised : Bool
deriving DecidableEq

/-- `Markov_Chain.save_markov_chain`: the file is opened with `'w'`
(truncated to empty); `json.dumps(self.mc)` is evaluated but its result
is discarded — `outfile` is never written to — so the file stays empty,
and for a non-empty chain the `TypeError` from `json.dumps` propagates. -/
def save_markov_chain (mc : Chain) : SaveOutcome :=
  match json_dumps_mc mc with
  | .ok _ => ⟨"", false⟩
  | .typeError => ⟨"", true⟩

/-- Outcome of `json.load` inside `load_markov_chain`. -/
inductive LoadResult where
  | valueError
  | unmodelled
deriving DecidableEq

/-- `Markov_Chain.load_markov_chain` on a file with the given content:
`json.load` on an empty file raises `ValueError` ("No JSON object could
be decoded").  Non-empty content is never produced by
`save_markov_chain` (proved below), so its parse is left abstract. -/
def load_markov_chain (content : String) : LoadResult :=
  if content = "" then .valueError else .unmodelled

/-! ### Derived observations used by the statements -/

/-- The count a distribution's mapping stores for a token (0 when absent). -/
def countD (l : List (String × Nat)) (t : String) : Nat := (alookup l t).getD 0

/-- The count the chain stores for successor `b` after context `a`
(0 when the context or the successor is absent). -/
def countIn (mc : Chain) (a b : String) : Nat :=
  match alookup mc a with
  | some d => countD d.dist b
  | none => 0

/-- Sum of the counts in a distribution's mapping. -/
def sumCounts (l : List (String × Nat)) : Nat := l.foldr (fun p acc => p.2 + acc) 0

/-- The redundant-total invariant of `Probability_Distribution`. -/
def distInv (d : Dist) : Prop := d.total = sumCounts d.dist

instance (d : Dist) : Decidable (distInv d) := by
  unfold distInv; infer_instance

/-- The invariant the training code maintains on the chain: every stored
distribution is non-empty (total at least 1) and keeps its total in sync. -/
def chainInv (mc : Chain) : Prop := ∀ p ∈ mc, 1 ≤ p.2.total ∧ distInv p.2

/-! ## Lemmas -/

@[simp]
theorem alookup_cons {α : Type} (k : String) (v : α) (rest : List (String × α)) (key : String) :
    alookup ((k, v) :: rest) key = if k = key then some v else alookup rest key := rfl

theorem alookup_mem {α : Type} (l : List (String × α)) (k : String) (v : α)
    (h : alookup l k = some v) : (k, v) ∈ l := by
  induction l with
  | nil => simp [alookup] at h
  | cons p rest ih =>
    obtain ⟨k0, v0⟩ := p
    rw [alookup_cons] at h
    by_cases hk : k0 = k
    · subst hk
      rw [if_pos rfl] at h
      cases h
      exact List.mem_cons_self _ _
    · rw [if_neg hk] at h
      exact List.mem_cons_of_mem _ (ih h)

theorem alookup_fst_isSome {α : Type} (l : List (String × α)) (i : Nat) (h : i < l.length) :
    ∃ v, alookup l (l.get ⟨i, h⟩).1 = some v := by
  induction l generalizing i with
  | nil => simp at h
  | cons p rest ih =>
    obtain ⟨k0, v0⟩ := p
    match i with
    | 0 => exact ⟨v0, by simp⟩
    | i + 1 =>
      simp only [List.length_cons, Nat.add_lt_add_iff_right] at h
      by_cases hk : k0 = (rest.get ⟨i, h⟩).1
      · exact ⟨v0, by simp [hk]⟩
      · obtain ⟨v, hv⟩ := ih i h
        exact ⟨v, by rw [List.get_cons_succ, alookup_cons, if_neg hk]; exact hv⟩

@[simp]
theorem sumCounts_nil : sumCounts [] = 0 := rfl

@[simp]
theorem sumCounts_cons (p : String × Nat) (rest : List (String × Nat)) :
    sumCounts (p :: rest) = p.2 + sumCounts rest := rfl

@[simp]
theorem countD_nil (s : String) : countD [] s = 0 := rfl

@[simp]
theorem countD_cons (k : String) (c : Nat) (rest : List (String × Nat)) (s : String) :
    countD ((k, c) :: rest) s = if k = s then c else countD rest s := by
  unfold countD
  rw [alookup_cons]
  by_cases h : k = s <;> simp [h]

@[simp]
theorem countIn_nil (a b : String) : countIn [] a b = 0 := rfl

@[simp]
theorem countIn_cons (k : String) (d : Dist) (rest : Chain) (a b : String) :
    countIn ((k, d) :: rest) a b = if k = a then countD d.dist b else countIn rest a b := by
  unfold countIn
  rw [alookup_cons]
  by_cases h : k = a <;> simp [h]

theorem countD_incr (l : List (String × Nat)) (t s : String) :
    countD (incr l t) s = if s = t then countD l s + 1 else countD l s := by
  induction l with
  | nil =>
    simp only [incr, countD_cons, countD_nil]
    by_cases h : s = t
    · simp [h]
    · rw [if_neg (fun hc : t = s => h hc.symm), if_neg h]
  | cons p rest ih =>
    obtain ⟨k, c⟩ := p
    simp only [incr]
    by_cases hk : k = t
    · simp only [if_pos hk, countD_cons]
      by_cases hs : k = s
      · have hst : s = t := by rw [← hs, hk]
        simp [hs, hst]
      · have hst : ¬ s = t := fun hc => hs (hk.trans hc.symm)
        rw [if_neg hs, if_neg hst, if_neg hs]
    · simp only [if_neg hk, countD_cons]
      by_cases hs : k = s
      · have hst : ¬ s = t := fun hc => hk (hs.trans hc)
        simp [hs, hst]
      · simp [hs, ih]

theorem sumCounts_incr (l : List (String × Nat)) (t : String) :
    sumCounts (incr l t) = sumCounts l + 1 := by
  induction l with
  | nil => simp [incr]
  | cons p rest ih =>
    obtain ⟨k, c⟩ := p
    by_cases hk : k = t
    · subst hk; simp [incr]; omega
    · simp [incr, hk, ih]; omega

theorem distInv_update (d : Dist) (t : String) (h : distInv d) :
    distInv (Dist.update d t) := by
  unfold distInv Dist.update at *
  simp [sumCounts_incr, h]

theorem countIn_chainStep_eq (mc : Chain) (a b y : String) :
    countIn (chainStep mc a b) a y = if y = b then countIn mc a y + 1 else countIn mc a y := by
  induction mc with
  | nil =>
    rw [chainStep, countIn_cons, if_pos rfl]
    show countD (incr [] b) y = _
    rw [countD_incr]
    by_cases h : y = b <;> simp [h]
  | cons p rest ih =>
    obtain ⟨k, d⟩ := p
    by_cases hk : k = a
    · subst hk
      rw [chainStep, if_pos rfl, countIn_cons, if_pos rfl, countIn_cons, if_pos rfl]
      exact countD_incr d.dist b y
    · rw [chainStep, if_neg hk, countIn_cons, if_neg hk, countIn_cons, if_neg hk, ih]

theorem countIn_chainStep_ne (mc : Chain) (a b x y : String) (h : x ≠ a) :
    countIn (chainStep mc a b) x y = countIn mc x y := by
  induction mc with
  | nil =>
    rw [chainStep, countIn_cons, if_neg (fun hc : a = x => h hc.symm)]
  | cons p rest ih =>
    obtain ⟨k, d⟩ := p
    by_cases hk : k = a
    · subst hk
      rw [chainStep, if_pos rfl, countIn_cons, if_neg (fun hc : k = x => h hc.symm),
        countIn_cons, if_neg (fun hc : k = x => h hc.symm)]
    · rw [chainStep, if_neg hk, countIn_cons, countIn_cons, ih]

theorem countIn_chainStep_mono (mc : Chain) (a b x y : String) :
    countIn mc x y ≤ countIn (chainStep mc a b) x y := by
  by_cases hx : x = a
  · subst hx
    rw [countIn_chainStep_eq]
    split <;> omega
  · rw [countIn_chainStep_ne mc a b x y hx]

theorem countIn_trainLoop_mono (rest : List String) (prev : String) (mc : Chain) (x y : String) :
    countIn mc x y ≤ countIn (trainLoop mc prev rest) x y := by
  induction rest generalizing prev mc with
  | nil => exact countIn_chainStep_mono mc prev "END_OF_TWEET" x y
  | cons z zs ih =>
    exact le_trans (countIn_chainStep_mono mc prev z x y) (ih z (chainStep mc prev z))

theorem countIn_chainStep_self (mc : Chain) (a b : String) :
    1 ≤ countIn (chainStep mc a b) a b := by
  rw [countIn_chainStep_eq, if_pos rfl]
  omega

theorem trainLoop_pair (rest : List String) :
    ∀ (prev : String) (mc : Chain) (i : Nat) (a b : String),
      (prev :: rest)[i]? = some a → (prev :: rest)[i + 1]? = some b →
      1 ≤ countIn (trainLoop mc prev rest) a b := by
  induction rest with
  | nil =>
    intro prev mc i a b _ hb
    simp at hb
  | cons x xs ih =>
    intro prev mc i a b ha hb
    match i with
    | 0 =>
      have ha' : prev = a := by simpa using ha
      have hb' : x = b := by simpa using hb
      subst ha'; subst hb'
      exact le_trans (countIn_chainStep_self mc prev x)
        (countIn_trainLoop_mono xs x (chainStep mc prev x) prev x)
    | i + 1 =>
      rw [List.getElem?_cons_succ] at ha hb
      exact ih x (chainStep mc prev x) i a b ha hb

theorem trainLoop_last (rest : List String) :
    ∀ (prev : String) (mc : Chain),
      1 ≤ countIn (trainLoop mc prev rest) ((prev :: rest).getLastD "") "END_OF_TWEET" := by
  induction rest with
  | nil =>
    intro prev mc
    exact countIn_chainStep_self mc prev "END_OF_TWEET"
  | cons x xs ih =>
    intro prev mc
    have h := ih x (chainStep mc prev x)
    have heq : (prev :: x :: xs).getLastD "" = (x :: xs).getLastD "" := by
      simp [List.getLastD_cons]
    rw [heq]
    exact h

/-! ## Claims -/

/-- C6: for every `Probability_Distribution`, the stored running total
equals the sum of the counts in its mapping — it holds for the freshly
created empty distribution, is preserved by every `update` call, and
therefore holds after any sequence of `update` calls. -/
theorem C6_total_in_sync :
    distInv Dist.empty
    ∧ (∀ (d : Dist) (t : String), distInv d → distInv (Dist.update d t))
    ∧ (∀ ts : List String, distInv (ts.foldl Dist.update Dist.empty)) := by
  refine ⟨by decide, fun d t h => distInv_update d t h, fun ts => ?_⟩
  have main : ∀ (ts : List String) (d : Dist), distInv d → distInv (ts.foldl Dist.update d) := by
    intro ts
    induction ts with
    | nil => intro d h; exact h
    | cons t ts ih => intro d h; exact ih (Dist.update d t) (distInv_update d t h)
  exact main ts Dist.empty (by decide)

/-- Witness for C6 at a concrete distribution and token. -/
theorem C6_witness : distInv (Dist.update ⟨[("a", 2)], 2⟩ "b") :=
  C6_total_in_sync.2.1 ⟨[("a", 2)], 2⟩ "b" (by decide)

/-- C8: training on a token sequence of length 0 or 1 leaves the chain
unchanged — no context entry is created or modified, and no terminal
marker is recorded for a length-1 sequence. -/
theorem C8_short_training_noop (mc : Chain) :
    update_markov_chain mc [] = mc ∧ ∀ t : String, update_markov_chain mc [t] = mc :=
  ⟨rfl, fun _ => rfl⟩

/-- C5: after training any chain on a token sequence of length at least 2,
every adjacent pair (a, b) of the sequence has count at least 1 for
successor b under context a, and the last token has the end-of-sequence
sentinel with count at least 1. -/
theorem C5_training_records_pairs (mc : Chain) (tokens : List String)
    (hlen : 2 ≤ tokens.length) :
    (∀ (i : Nat) (a b : String), tokens[i]? = some a → tokens[i + 1]? = some b →
      1 ≤ countIn (update_markov_chain mc tokens) a b)
    ∧ 1 ≤ countIn (update_markov_chain mc tokens) (tokens.getLastD "") "END_OF_TWEET" := by
  match tokens with
  | [] => simp at hlen
  | [t] => simp at hlen
  | t0 :: t1 :: rest =>
    refine ⟨?_, ?_⟩
    · intro i a b ha hb
      exact trainLoop_pair (t1 :: rest) t0 mc i a b ha hb
    · exact trainLoop_last (t1 :: rest) t0 mc

/-- Witness for C5 on the concrete sequence ["a", "b"]. -/
theorem C5_witness :
    1 ≤ countIn (update_markov_chain [] ["a", "b"]) "a" "b"
    ∧ 1 ≤ countIn (update_markov_chain [] ["a", "b"]) (["a", "b"].getLastD "") "END_OF_TWEET" :=
  ⟨(C5_training_records_pairs [] ["a", "b"] (by decide)).1 0 "a" "b" (by decide) (by decide),
   (C5_training_records_pairs [] ["a", "b"] (by decide)).2⟩

theorem pickLoop_spec (l : List (String × Nat)) :
    ∀ (r acc : Nat), acc ≤ r → r < acc + sumCounts l →
      ∃ i, ∃ h : i < l.length, pickLoop l r acc = some (l.get ⟨i, h⟩).1
        ∧ acc + sumCounts (l.take i) ≤ r ∧ r < acc + sumCounts (l.take (i + 1)) := by
  induction l with
  | nil =>
    intro r acc h1 h2
    simp only [sumCounts_nil] at h2
    omega
  | cons p rest ih =>
    obtain ⟨t, c⟩ := p
    intro r acc h1 h2
    by_cases hlt : r < c + acc
    · refine ⟨0, by simp, ?_, ?_, ?_⟩
      · simp [pickLoop, hlt]
      · simpa using h1
      · simp only [List.take_succ_cons, List.take_zero, sumCounts_cons, sumCounts_nil]
        omega
    · have h2' : r < (acc + c) + sumCounts rest := by
        simp only [sumCounts_cons] at h2
        omega
      obtain ⟨i, hi, heq, hlo, hhi⟩ := ih r (acc + c) (by omega) h2'
      refine ⟨i + 1, by simpa using hi, ?_, ?_, ?_⟩
      · simp only [pickLoop, if_neg hlt, List.get_cons_succ]
        exact heq
      · simp only [List.take_succ_cons, sumCounts_cons]
        omega
      · simp only [List.take_succ_cons, sumCounts_cons]
        omega

/-- C7: when the total is positive and the draw r lies in [0, total),
`pick` returns exactly the first token in the mapping's iteration order
whose cumulative count exceeds r (the unique index whose cumulative
range contains r); when the total is 0, `pick` fails (the precondition
violation from `random.randrange(0)`) instead of returning a value. -/
theorem C7_pick_first_cumulative :
    (∀ (d : Dist) (r : Nat), distInv d → r < d.total →
      ∃ i, ∃ h : i < d.dist.length,
        d.pick r = Except.ok (some (d.dist.get ⟨i, h⟩).1)
        ∧ sumCounts (d.dist.take i) ≤ r ∧ r < sumCounts (d.dist.take (i + 1)))
    ∧ ∀ (d : Dist) (r : Nat), d.total = 0 → d.pick r = Except.error PyErr.valueError := by
  constructor
  · intro d r hinv hr
    have htot : ¬ d.total = 0 := by omega
    have hmod : r % d.total = r := Nat.mod_eq_of_lt hr
    have hlt : r < 0 + sumCounts d.dist := by
      rw [Nat.zero_add, ← hinv]
      exact hr
    obtain ⟨i, hi, heq, hlo, hhi⟩ := pickLoop_spec d.dist r 0 (Nat.zero_le r) hlt
    refine ⟨i, hi, ?_, by simpa using hlo, by simpa using hhi⟩
    unfold Dist.pick
    rw [if_neg htot, hmod, heq]
  · intro d r h
    unfold Dist.pick
    rw [if_pos h]

/-- Witness for C7 on the distribution with counts A ↦ 3, B ↦ 1 and draw 3. -/
theorem C7_witness :
    ∃ i, ∃ h : i < (Dist.mk [("A", 3), ("B", 1)] 4).dist.length,
      (Dist.mk [("A", 3), ("B", 1)] 4).pick 3
        = Except.ok (some ((Dist.mk [("A", 3), ("B", 1)] 4).dist.get ⟨i, h⟩).1)
      ∧ sumCounts ((Dist.mk [("A", 3), ("B", 1)] 4).dist.take i) ≤ 3
      ∧ 3 < sumCounts ((Dist.mk [("A", 3), ("B", 1)] 4).dist.take (i + 1)) :=
  C7_pick_first_cumulative.1 (Dist.mk [("A", 3), ("B", 1)] 4) 3 (by decide) (by decide)

theorem chainInv_nil : chainInv [] := by
  intro p hp
  simp at hp

theorem chainInv_chainStep (mc : Chain) (a b : String) (h : chainInv mc) :
    chainInv (chainStep mc a b) := by
  induction mc with
  | nil =>
    intro p hp
    simp only [chainStep] at hp
    rw [List.mem_singleton] at hp
    subst hp
    refine ⟨Nat.le_refl 1, ?_⟩
    simp [distInv, Dist.update, Dist.empty, incr]
  | cons q rest ih =>
    obtain ⟨k, d⟩ := q
    have hhead := h (k, d) (List.mem_cons_self _ _)
    have htail : chainInv rest := fun p hp => h p (List.mem_cons_of_mem _ hp)
    by_cases hk : k = a
    · intro p hp
      simp only [chainStep, if_pos hk] at hp
      rcases List.mem_cons.mp hp with heq | hp'
      · subst heq
        exact ⟨Nat.le_add_left 1 d.total, distInv_update d b hhead.2⟩
      · exact htail p hp'
    · intro p hp
      simp only [chainStep, if_neg hk] at hp
      rcases List.mem_cons.mp hp with heq | hp'
      · subst heq
        exact hhead
      · exact ih htail p hp'

theorem chainInv_trainLoop (rest : List String) :
    ∀ (prev : String) (mc : Chain), chainInv mc → chainInv (trainLoop mc prev rest) := by
  induction rest with
  | nil => exact fun prev mc h => chainInv_chainStep mc prev "END_OF_TWEET" h
  | cons x xs ih => exact fun prev mc h => ih x (chainStep mc prev x) (chainInv_chainStep mc prev x h)

theorem chainInv_update_markov_chain (mc : Chain) (tokens : List String) (h : chainInv mc) :
    chainInv (update_markov_chain mc tokens) := by
  match tokens with
  | [] => exact h
  | [t] => exact h
  | t0 :: t1 :: rest => exact chainInv_trainLoop (t1 :: rest) t0 mc h

theorem chainInv_foldl (tss : List (List String)) :
    ∀ mc : Chain, chainInv mc → chainInv (tss.foldl update_markov_chain mc) := by
  induction tss with
  | nil => exact fun mc h => h
  | cons ts tss ih =>
    exact fun mc h => ih (update_markov_chain mc ts) (chainInv_update_markov_chain mc ts h)

theorem pickLoop_mem (l : List (String × Nat)) :
    ∀ (r acc : Nat) (t : String), pickLoop l r acc = some t → ∃ c, (t, c) ∈ l := by
  induction l with
  | nil =>
    intro r acc t h
    simp [pickLoop] at h
  | cons p rest ih =>
    obtain ⟨k, c⟩ := p
    intro r acc t h
    simp only [pickLoop] at h
    by_cases hlt : r < c + acc
    · rw [if_pos hlt] at h
      injection h with h'
      subst h'
      exact ⟨c, List.mem_cons_self _ _⟩
    · rw [if_neg hlt] at h
      obtain ⟨c', hc⟩ := ih r (acc + c) t h
      exact ⟨c', List.mem_cons_of_mem _ hc⟩

theorem generate_next_token_ok_mem (mc : Chain) (seed : String) (r : Nat) (t : String)
    (h : generate_next_token mc seed r = Except.ok (some t)) :
    ∃ d c, alookup mc seed = some d ∧ (t, c) ∈ d.dist := by
  unfold generate_next_token at h
  cases hl : alookup mc seed with
  | none =>
    rw [hl] at h
    exact Except.noConfusion h
  | some d =>
    rw [hl] at h
    replace h : d.pick r = Except.ok (some t) := h
    unfold Dist.pick at h
    by_cases htot : d.total = 0
    · rw [if_pos htot] at h
      exact Except.noConfusion h
    · rw [if_neg htot] at h
      injection h with h'
      obtain ⟨c, hc⟩ := pickLoop_mem d.dist (r % d.total) 0 t h'
      exact ⟨d, c, rfl, hc⟩

/-- C10: on a chain built from the empty chain by any sequence of training
calls, every stored distribution has total at least 1, and for every
context token present in the mapping, `generate_next_token` (for any
random draw) never reaches the empty-distribution error branch of `pick`
and returns a token present in that distribution's counts mapping. -/
theorem C10_trained_chain_safe_pick (tss : List (List String)) (k : String) (d : Dist) (r : Nat)
    (h : alookup (tss.foldl update_markov_chain []) k = some d) :
    1 ≤ d.total
    ∧ ∃ t c, generate_next_token (tss.foldl update_markov_chain []) k r = Except.ok (some t)
        ∧ alookup d.dist t = some c := by
  have hinv : chainInv (tss.foldl update_markov_chain []) := chainInv_foldl tss [] chainInv_nil
  obtain ⟨h1', h2'⟩ := hinv (k, d) (alookup_mem _ _ _ h)
  have h1 : 1 ≤ d.total := h1'
  have h2 : d.total = sumCounts d.dist := h2'
  refine ⟨h1, ?_⟩
  have htot : ¬ d.total = 0 := by omega
  have hmod : r % d.total < d.total := Nat.mod_lt r (by omega)
  have hlt : r % d.total < 0 + sumCounts d.dist := by
    rw [Nat.zero_add, ← h2]
    exact hmod
  obtain ⟨i, hi, heq, hlo, hhi⟩ := pickLoop_spec d.dist (r % d.total) 0 (Nat.zero_le _) hlt
  obtain ⟨c, hc⟩ := alookup_fst_isSome d.dist i hi
  refine ⟨(d.dist.get ⟨i, hi⟩).1, c, ?_, hc⟩
  have hgen : generate_next_token (tss.foldl update_markov_chain []) k r = d.pick r := by
    unfold generate_next_token
    rw [h]
  rw [hgen]
  unfold Dist.pick
  rw [if_neg htot, heq]

/-- Witness for C10 on the chain trained on ["a", "b"], context "a", draw 0. -/
theorem C10_witness :
    1 ≤ (Dist.mk [("b", 1)] 1).total
    ∧ ∃ t c, generate_next_token ([["a", "b"]].foldl update_markov_chain []) "a" 0
          = Except.ok (some t)
        ∧ alookup (Dist.mk [("b", 1)] 1).dist t = some c :=
  C10_trained_chain_safe_pick [["a", "b"]] "a" (Dist.mk [("b", 1)] 1) 0 (by decide)

/-- C1: evaluation of the code at the failing input.  On a seed absent
from the chain, `generate_tweet` does NOT surface an explicit failure: it
prints the diagnostic "Seed not present in the Markov Chain" and returns
the empty string — exactly what the claim (and the spec's propagation
policy) forbids. -/
theorem C1_unknown_seed_prints_and_returns_empty :
    generate_tweet [] "xyz_unseen_token" (fun _ => 0)
      = TweetOutcome.returned "" ["Seed not present in the Markov Chain"] := by
  decide

/-- C2: evaluation of the broken persistence code.  `save_markov_chain`
always leaves the file empty (it discards the result of `json.dumps`),
loading that file always fails with `ValueError`, and for any non-empty
chain the save call itself raises `TypeError` — so load-after-save never
reconstructs the chain, contradicting the round-trip claim. -/
theorem C2_save_load_roundtrip_broken :
    (∀ mc : Chain, (save_markov_chain mc).fileContent = ""
      ∧ load_markov_chain (save_markov_chain mc).fileContent = LoadResult.valueError)
    ∧ ∀ (a : String) (d : Dist) (l : Chain), (save_markov_chain ((a, d) :: l)).raised = true := by
  constructor
  · intro mc
    cases mc with
    | nil => exact ⟨rfl, rfl⟩
    | cons p rest => exact ⟨rfl, rfl⟩
  · intro a d l
    rfl

set_option maxRecDepth 10000 in
/-- C3 counterexample: a seed of 141 characters is returned unchanged by
`generate_tweet` on the empty chain, so the returned string's length
exceeds the 140-character cap, refuting "the output length never exceeds
the cap" as stated. -/
theorem C3_counterexample :
    generate_tweet [] (String.mk (List.replicate 141 'a')) (fun _ => 0)
      = TweetOutcome.returned (String.mk (List.replicate 141 'a')) []
    ∧ 140 < (String.mk (List.replicate 141 'a')).length := by
  constructor
  · decide
  · decide

theorem genLoop_fuel_irrelevant (mc : Chain) (oracle : Nat → Nat) :
    ∀ (fuel fuel' step : Nat) (tweet seed : String),
      140 ≤ tweet.length + fuel → 140 ≤ tweet.length + fuel' →
      genLoop mc oracle fuel step tweet seed = genLoop mc oracle fuel' step tweet seed := by
  intro fuel
  induction fuel with
  | zero =>
    intro fuel' step tweet seed hf hf'
    have hge : ¬ tweet.length < 140 := by omega
    cases fuel' with
    | zero => rfl
    | succ fuel' =>
      simp only [genLoop, if_neg hge]
  | succ fuel ih =>
    intro fuel' step tweet seed hf hf'
    cases fuel' with
    | zero =>
      have hge : ¬ tweet.length < 140 := by omega
      simp only [genLoop, if_neg hge]
    | succ fuel' =>
      simp only [genLoop]
      by_cases hlt : tweet.length < 140
      · rw [if_pos hlt, if_pos hlt]
        cases hg : generate_next_token mc seed (oracle step) with
        | error e => cases e <;> rfl
        | ok o =>
          cases o with
          | none => rfl
          | some next =>
            show (if next = "END_OF_TWEET" then TweetOutcome.returned tweet []
                else genLoop mc oracle fuel (step + 1) (tweet ++ " " ++ next) next)
              = (if next = "END_OF_TWEET" then TweetOutcome.returned tweet []
                else genLoop mc oracle fuel' (step + 1) (tweet ++ " " ++ next) next)
            by_cases hend : next = "END_OF_TWEET"
            · rw [if_pos hend, if_pos hend]
            · rw [if_neg hend, if_neg hend]
              have hsp : (" " : String).length = 1 := rfl
              have happ : (tweet ++ " " ++ next).length = tweet.length + 1 + next.length := by
                rw [String.length_append, String.length_append, hsp]
              exact ih fuel' (step + 1) (tweet ++ " " ++ next) next (by omega) (by omega)
      · rw [if_neg hlt, if_neg hlt]

theorem genLoop_length_bound (mc : Chain) (oracle : Nat → Nat) (L : Nat)
    (hL : ∀ p ∈ mc, ∀ q ∈ p.2.dist, q.1.length ≤ L) :
    ∀ (fuel step : Nat) (tweet seed s : String) (printed : List String),
      tweet.length < 141 + L →
      genLoop mc oracle fuel step tweet seed = TweetOutcome.returned s printed →
      s.length < 141 + L := by
  intro fuel
  induction fuel with
  | zero =>
    intro step tweet seed s printed hlen heq
    simp only [genLoop] at heq
    cases heq
    exact hlen
  | succ fuel ih =>
    intro step tweet seed s printed hlen heq
    simp only [genLoop] at heq
    by_cases hlt : tweet.length < 140
    · rw [if_pos hlt] at heq
      cases hg : generate_next_token mc seed (oracle step) with
      | error e =>
        rw [hg] at heq
        cases e with
        | keyError =>
          replace heq : TweetOutcome.returned "" ["Seed not present in the Markov Chain"]
              = TweetOutcome.returned s printed := heq
          cases heq
          have hz : ("" : String).length = 0 := rfl
          omega
        | valueError =>
          replace heq : TweetOutcome.raisedValueError = TweetOutcome.returned s printed := heq
          exact TweetOutcome.noConfusion heq
      | ok o =>
        rw [hg] at heq
        cases o with
        | none =>
          replace heq : TweetOutcome.raisedTypeError = TweetOutcome.returned s printed := heq
          exact TweetOutcome.noConfusion heq
        | some next =>
          replace heq : (if next = "END_OF_TWEET" then TweetOutcome.returned tweet []
              else genLoop mc oracle fuel (step + 1) (tweet ++ " " ++ next) next)
              = TweetOutcome.returned s printed := heq
          by_cases hend : next = "END_OF_TWEET"
          · rw [if_pos hend] at heq
            cases heq
            exact hlen
          · rw [if_neg hend] at heq
            refine ih (step + 1) (tweet ++ " " ++ next) next s printed ?_ heq
            obtain ⟨d, c, hd, hmem⟩ := generate_next_token_ok_mem mc seed (oracle step) next hg
            have hnext : next.length ≤ L := hL (seed, d) (alookup_mem _ _ _ hd) (next, c) hmem
            have hsp : (" " : String).length = 1 := rfl
            have happ : (tweet ++ " " ++ next).length = tweet.length + 1 + next.length := by
              rw [String.length_append, String.length_append, hsp]
            omega
    · rw [if_neg hlt] at heq
      replace heq : TweetOutcome.returned tweet [] = TweetOutcome.returned s printed := heq
      cases heq
      exact hlen

/-- C3 amended: generation appends a token only while the current output
is shorter than 140 characters, so the cap is soft — the final append may
overshoot it by one separator plus one token, and a too-long seed is
returned unchanged.  Precisely: if every successor token stored in the
chain has length at most L and the seed is shorter than 141 + L, then
any string `generate_tweet` returns is shorter than 141 + L. -/
theorem C3_amended_soft_cap (mc : Chain) (seed : String) (oracle : Nat → Nat) (L : Nat)
    (hL : ∀ p ∈ mc, ∀ q ∈ p.2.dist, q.1.length ≤ L)
    (hseed : seed.length < 141 + L) (s : String) (printed : List String)
    (h : generate_tweet mc seed oracle = TweetOutcome.returned s printed) :
    s.length < 141 + L :=
  genLoop_length_bound mc oracle L hL 140 0 seed seed s printed hseed h

/-- Witness for the amended C3 on a one-entry chain whose only successor
token is the sentinel. -/
theorem C3_witness : ("a" : String).length < 141 + 12 :=
  C3_amended_soft_cap [("a", Dist.mk [("END_OF_TWEET", 1)] 1)] "a" (fun _ => 0) 12
    (by decide) (by decide) "a" [] (by decide)

/-- C4: evaluation of the code at the failing input.  The reserved
sentinel `'END_OF_TWEET'` is an ordinary word-character run, so the
tokenizer produces it verbatim from the input text "END_OF_TWEET" — the
sentinel collides with a tokenizer-producible token, refuting the claim
that it cannot. -/
theorem C4_tokenizer_produces_sentinel : tokenize "END_OF_TWEET" = ["END_OF_TWEET"] := by
  decide

/-- C9: tokenizing the documented example yields exactly the six claimed
tokens in order, and tokenizing the empty string yields the empty
sequence. -/
theorem C9_tokenize_example :
    tokenize "Hello @world #test :) http://example.com 42.5"
      = ["Hello", "@world", "#test", ":)", "http://example.com", "42.5"]
    ∧ tokenize "" = [] := by
  constructor
  · decide
  · rfl

end MarkovTweet
